import Mathlib

/-!
Shallow embedding of the network-topologer core (traceroute.py,
network_topologer.py, exceptions.py) and verification of its specified
properties. Byte strings are lists of naturals below 256, round-trip
times are rationals, Python dicts are association lists in insertion
order with unique keys, and Python sets are duplicate-free lists in
insertion order. The unbounded probe loop of Traceroute.run is modelled
with explicit fuel; the network is abstracted as oracles for resolution,
socket creation, probe sends and received replies.
-/

namespace NetTopo

/-- Byte strings: each entry is one byte (a natural below 256). -/
abbrev Bytes := List Nat

/-- Embedding of Traceroute._parse_icmp_type: parse an IP packet and return the
ICMP type, or none if parsing fails. The packet must be at least 20 bytes; the
header length is the low nibble of the first byte times 4; the packet must
extend at least 4 bytes past the header; the ICMP type is the byte immediately
after the IP header. -/
def parse_icmp_type (data : Bytes) : Option Nat :=
  if data.length < 20 then none
  else
    if data.length < (data.getD 0 0 % 16) * 4 + 4 then none
    else some (data.getD ((data.getD 0 0 % 16) * 4) 0)

/-- One inbound packet available to the raw socket during a _receive_reply
call: its arrival time in seconds measured from the start of the call, its raw
bytes, and its source address. -/
structure Packet where
  time : ℚ
  data : Bytes
  addr : String

/-- Embedding of the while-loop of Traceroute._receive_reply. The packets are
those that arrive during the call, in arrival order; a packet is received
exactly when it arrives strictly before the timeout elapses. The three
accumulator arguments mirror the local variables addr, icmp_type and rtt_ms:
they are updated by every received packet and returned when the loop exits,
and the loop exits early exactly on a packet of ICMP type 11 or 3. -/
def receiveReplyLoop (timeout : ℚ) :
    List Packet → Option String → Option Nat → Option ℚ →
    Option String × Option Nat × Option ℚ
  | [], addr, ty, rtt => (addr, ty, rtt)
  | p :: rest, addr, ty, rtt =>
    if p.time < timeout then
      if parse_icmp_type p.data = some 11 ∨ parse_icmp_type p.data = some 3 then
        (some p.addr, parse_icmp_type p.data, some (p.time * 1000))
      else
        receiveReplyLoop timeout rest (some p.addr) (parse_icmp_type p.data)
          (some (p.time * 1000))
    else (addr, ty, rtt)

/-- Embedding of Traceroute._receive_reply: wait for a single ICMP reply until
the timeout and return (addr, icmp_type, rtt_ms), all three starting as None. -/
def receive_reply (timeout : ℚ) (packets : List Packet) :
    Option String × Option Nat × Option ℚ :=
  receiveReplyLoop timeout packets none none none

/-- The exception kinds of exceptions.py: DNSResolveError and
TraceroutePermissionError are subclasses of TracerouteError, and probe send
failures raise the base class itself; a handler for TracerouteError catches
all three. -/
inductive TracerouteError where
  | dnsResolveError
  | permissionError
  | sendError
  deriving DecidableEq

deriving instance DecidableEq for Except

/-- A recorded hop (ttl, ip_or_None, rtt_ms), as appended by Traceroute.run. -/
abbrev Hop := Nat × Option String × Option ℚ

/-- Embedding of the while-loop of Traceroute.run. `sendOk ttl` says whether
the UDP send at that ttl succeeds (otherwise _send_probe raises the base
TracerouteError); `reply ttl` is what _receive_reply returns during that ttl's
wait. The source loop has no upper bound, so fuel bounds the modelled
unrolling: none means the loop was still running after `fuel` iterations. -/
def runLoop (destIp : String) (sendOk : Nat → Bool)
    (reply : Nat → Option String × Option Nat × Option ℚ) :
    Nat → Nat → List Hop → Option (Except TracerouteError (List Hop))
  | 0, _, _ => none
  | fuel + 1, ttl, hops =>
    if sendOk ttl then
      match reply ttl with
      | (none, _, _) =>
        runLoop destIp sendOk reply fuel (ttl + 1) (hops ++ [(ttl, none, none)])
      | (some addr, icmpType, rtt) =>
        if addr = destIp ∨ icmpType = some 3 then
          some (Except.ok (hops ++ [(ttl, some addr, rtt)]))
        else
          runLoop destIp sendOk reply fuel (ttl + 1) (hops ++ [(ttl, some addr, rtt)])
    else some (Except.error TracerouteError.sendError)

/-- Embedding of Traceroute.run. `resolved` is the outcome of _resolve (none
means socket.gethostbyname failed, so DNSResolveError is raised); `socketsOk`
says whether raw-socket creation in _create_sockets succeeds (otherwise
TraceroutePermissionError is raised). `some (Except.error e)` models the call
raising e, `some (Except.ok hops)` a normal return of the accumulated hops,
and none that the probe loop was still running when the fuel ran out. -/
def traceroute_run (resolved : Option String) (socketsOk : Bool)
    (sendOk : Nat → Bool) (reply : Nat → Option String × Option Nat × Option ℚ)
    (fuel : Nat) : Option (Except TracerouteError (List Hop)) :=
  match resolved with
  | none => some (Except.error TracerouteError.dnsResolveError)
  | some destIp =>
    if socketsOk then runLoop destIp sendOk reply fuel 1 []
    else some (Except.error TracerouteError.permissionError)

/-- A stored ResultSet, destination string to hop list, modelled as an
association list in Python dict insertion order. -/
abbrev ResultSet := List (String × List Hop)

/-- Dict lookup on the association-list model. -/
def lookupKey {α : Type} (k : String) : List (String × α) → Option α
  | [] => none
  | (q, v) :: rest => if q = k then some v else lookupKey k rest

/-- Dict assignment d[k] = v on the association-list model: overwrite in place
when the key exists, otherwise append a new entry at the end. -/
def setKey {α : Type} (m : List (String × α)) (k : String) (v : α) :
    List (String × α) :=
  match m with
  | [] => [(k, v)]
  | (q, w) :: rest =>
    if q = k then (k, v) :: rest else (q, w) :: setKey rest k v

/-- The key list of an association-list dict, in insertion order. -/
def keys {α : Type} (m : List (String × α)) : List String :=
  m.map (fun p => p.1)

/-- The hop list the orchestrator stores for one destination: the traced hops,
or the empty list when the Traceroute raised a TracerouteError of any kind
(the except-branch of NetworkTopologer.run). -/
def tracedValue (tracer : String → Except TracerouteError (List Hop))
    (d : String) : List Hop :=
  match tracer d with
  | Except.ok hops => hops
  | Except.error _ => []

/-- Embedding of NetworkTopologer.run: for each destination in order, run a
Traceroute (abstracted as the tracer oracle) and store its hops, catching any
TracerouteError and storing the empty list instead. The stored mapping
self.results is NOT cleared first, so `state` is whatever the instance already
holds. -/
def ntRun (tracer : String → Except TracerouteError (List Hop))
    (state : ResultSet) (dests : List String) : ResultSet :=
  dests.foldl (fun st d => setKey st d (tracedValue tracer d)) state

/-- Embedding of NetworkTopologer.run_parallel: self.results is reset to the
empty dict, every submitted destination is traced by an independent worker,
and results are stored as the workers complete; `order` is the completion
order of the submitted destinations. The prior stored state is ignored. -/
def ntRunParallel (_state : ResultSet)
    (tracer : String → Except TracerouteError (List Hop))
    (order : List String) : ResultSet :=
  order.foldl (fun st d => setKey st d (tracedValue tracer d)) []

/-- The present addresses of a hop list, in order: the Python comprehension
[ip for _, ip, _ in hops if ip is not None]. -/
def presentIPs (hops : List Hop) : List String :=
  hops.filterMap (fun h => h.2.1)

/-- Python adjacency.setdefault(a, set()).add(b) on the association-list model
of a dict of sets: a set is a duplicate-free list in insertion order, so the
target is appended only when not already a member. -/
def addEdge (adj : List (String × List String)) (a b : String) :
    List (String × List String) :=
  match adj with
  | [] => [(a, [b])]
  | (k, s) :: rest =>
    if k = a then (k, if b ∈ s then s else s ++ [b]) :: rest
    else (k, s) :: addEdge rest a b

/-- The set stored under a source key after adding one target: the fresh
singleton set when the key was absent, otherwise the old set with the target
appended unless already a member. -/
def addTarget (o : Option (List String)) (b : String) : List String :=
  match o with
  | none => [b]
  | some s => if b ∈ s then s else s ++ [b]

/-- The inner loop of NetworkTopologer.build_adjacency: add one directed edge
between each pair of consecutive entries of the present-address list. -/
def addPathEdges : List (String × List String) → List String →
    List (String × List String)
  | adj, a :: b :: rest => addPathEdges (addEdge adj a b) (b :: rest)
  | adj, _ => adj

/-- Embedding of NetworkTopologer.build_adjacency over an explicit result set. -/
def build_adjacency (results : ResultSet) : List (String × List String) :=
  results.foldl (fun adj p => addPathEdges adj (presentIPs p.2)) []

/-- The consecutive pairs of a list: one pair for each adjacent position. -/
def consecPairs {α : Type} : List α → List (α × α)
  | a :: b :: rest => (a, b) :: consecPairs (b :: rest)
  | _ => []

/-- Spec-side edge collection of derive_adjacency, following the spec text:
for each destination's hop list, take the subsequence of hops with a present
address and form a directed edge from each address to the next one. -/
def specEdges (results : ResultSet) : List (String × String) :=
  results.foldr (fun p acc => consecPairs (presentIPs p.2) ++ acc) []

/-- Membership of a directed edge in the adjacency-dict model: the source key
is present and the target belongs to its set. -/
def adjMem (adj : List (String × List String)) (a b : String) : Prop :=
  ∃ s, lookupKey a adj = some s ∧ b ∈ s

/-- Python edge_latencies.setdefault(edge, []).append(delta) on the
association-list model of a dict of lists. -/
def addSample (m : List ((String × String) × List ℚ)) (k : String × String)
    (v : ℚ) : List ((String × String) × List ℚ) :=
  match m with
  | [] => [(k, [v])]
  | (q, vs) :: rest =>
    if q = k then (q, vs ++ [v]) :: rest else (q, vs) :: addSample rest k v

/-- The pairs [(ip, rtt) for _, ip, rtt in hops if ip is not None and
rtt is not None]. -/
def ipRttPairs (hops : List Hop) : List (String × ℚ) :=
  hops.filterMap (fun h =>
    match h.2.1, h.2.2 with
    | some ip, some rtt => some (ip, rtt)
    | _, _ => none)

/-- The delta computed by the loop body of build_adjacency_with_latency,
including the Python truthiness test: dst_rtt - src_rtt when both floats are
truthy (nonzero), else dst_rtt. -/
def deltaMs (ra rb : ℚ) : ℚ :=
  if rb ≠ 0 ∧ ra ≠ 0 then rb - ra else rb

/-- The inner loop of build_adjacency_with_latency, including the Python
truthiness test on the append guard: the sample is appended only when the
delta is truthy (nonzero) and positive. -/
def addLatencySamples : List ((String × String) × List ℚ) →
    List (String × ℚ) → List ((String × String) × List ℚ)
  | m, (a, ra) :: (b, rb) :: rest =>
    addLatencySamples
      (if deltaMs ra rb ≠ 0 ∧ 0 < deltaMs ra rb
       then addSample m (a, b) (deltaMs ra rb) else m)
      ((b, rb) :: rest)
  | m, _ => m

/-- Embedding of NetworkTopologer.build_adjacency_with_latency over an
explicit result set. -/
def build_adjacency_with_latency (results : ResultSet) :
    List ((String × String) × List ℚ) :=
  results.foldl (fun m p => addLatencySamples m (ipRttPairs p.2)) []

/-- Spec-side inner loop of derive_edge_latency, following the spec text
exactly: for each consecutive pair, delta = next.rtt - current.rtt is appended
to the list keyed by the address pair exactly when delta > 0. -/
def specLatencySamples : List ((String × String) × List ℚ) →
    List (String × ℚ) → List ((String × String) × List ℚ)
  | m, (a, ra) :: (b, rb) :: rest =>
    specLatencySamples
      (if 0 < rb - ra then addSample m (a, b) (rb - ra) else m)
      ((b, rb) :: rest)
  | m, _ => m

/-- Spec-side derive_edge_latency over an explicit result set. -/
def derive_edge_latency_spec (results : ResultSet) :
    List ((String × String) × List ℚ) :=
  results.foldl (fun m p => specLatencySamples m (ipRttPairs p.2)) []

/-- A concrete tracer used to instantiate the orchestrator theorems: name
resolution fails for destination "b", every other destination traces to a
single-hop path. -/
def egTracer : String → Except TracerouteError (List Hop) :=
  fun d =>
    if d = "b" then Except.error TracerouteError.dnsResolveError
    else Except.ok [(1, some ("1.1.1.1"), some 5)]

end NetTopo

namespace NetTopo

/-- No edge belongs to the empty adjacency dict. -/
theorem adjMem_nil (x y : String) : ¬ adjMem [] x y := by
  rintro ⟨s, hs, _⟩
  simp [lookupKey] at hs

/-- Lookup after addEdge: the source key now holds its old set with the target
added; every other key is untouched. -/
theorem lookupKey_addEdge (a b x : String) :
    ∀ adj : List (String × List String),
      lookupKey x (addEdge adj a b)
        = if a = x then some (addTarget (lookupKey a adj) b) else lookupKey x adj
  | [] => by
    by_cases hax : a = x <;> simp [addEdge, lookupKey, hax, addTarget]
  | (k, s) :: rest => by
    by_cases hka : k = a
    · subst hka
      by_cases hkx : k = x
      · subst hkx
        simp [addEdge, lookupKey, addTarget]
      · simp [addEdge, lookupKey, hkx, addTarget]
    · by_cases hkx : k = x
      · subst hkx
        have hax : ¬ a = k := fun h => hka h.symm
        simp [addEdge, lookupKey, hka, hax]
      · simp only [addEdge, if_neg hka, lookupKey, if_neg hkx]
        rw [lookupKey_addEdge a b x rest]

/-- Membership in the stored target set after adding one target. -/
theorem mem_addTarget (y b : String) (o : Option (List String)) :
    y ∈ addTarget o b ↔ y = b ∨ ∃ s, o = some s ∧ y ∈ s := by
  cases o with
  | none => simp [addTarget]
  | some s =>
    by_cases hbs : b ∈ s
    · simp only [addTarget, if_pos hbs, Option.some.injEq]
      constructor
      · intro hy
        exact Or.inr ⟨s, rfl, hy⟩
      · rintro (hy | ⟨t, ht, hy⟩)
        · subst hy; exact hbs
        · rw [← ht] at hy; exact hy
    · simp only [addTarget, if_neg hbs, List.mem_append, List.mem_singleton,
        Option.some.injEq]
      constructor
      · rintro (hy | hy)
        · exact Or.inr ⟨s, rfl, hy⟩
        · exact Or.inl hy
      · rintro (hy | ⟨t, ht, hy⟩)
        · exact Or.inr hy
        · rw [← ht] at hy; exact Or.inl hy

/-- Adding the edge (a, b) makes exactly (a, b) a member on top of the
existing edges. -/
theorem adjMem_addEdge (a b x y : String) (adj : List (String × List String)) :
    adjMem (addEdge adj a b) x y ↔ (x = a ∧ y = b) ∨ adjMem adj x y := by
  unfold adjMem
  rw [lookupKey_addEdge]
  by_cases hax : a = x
  · subst hax
    rw [if_pos rfl]
    constructor
    · rintro ⟨s, hs, hy⟩
      rw [Option.some.injEq] at hs
      rw [← hs] at hy
      rcases (mem_addTarget y b _).mp hy with h | ⟨t, ht, hyt⟩
      · exact Or.inl ⟨rfl, h⟩
      · exact Or.inr ⟨t, ht, hyt⟩
    · rintro (⟨_, hy⟩ | ⟨t, ht, hyt⟩)
      · exact ⟨addTarget (lookupKey a adj) b, rfl,
          (mem_addTarget y b _).mpr (Or.inl hy)⟩
      · exact ⟨addTarget (lookupKey a adj) b, rfl,
          (mem_addTarget y b _).mpr (Or.inr ⟨t, ht, hyt⟩)⟩
  · rw [if_neg hax]
    constructor
    · exact fun h => Or.inr h
    · rintro (⟨hx, _⟩ | h)
      · exact absurd hx.symm hax
      · exact h

/-- Adding a whole path adds exactly its consecutive pairs as edges. -/
theorem adjMem_addPathEdges (x y : String) :
    ∀ (ips : List String) (adj : List (String × List String)),
      adjMem (addPathEdges adj ips) x y ↔ (x, y) ∈ consecPairs ips ∨ adjMem adj x y
  | [], adj => by simp [addPathEdges, consecPairs]
  | [a], adj => by simp [addPathEdges, consecPairs]
  | a :: b :: rest, adj => by
    rw [show addPathEdges adj (a :: b :: rest)
          = addPathEdges (addEdge adj a b) (b :: rest) from rfl]
    rw [adjMem_addPathEdges x y (b :: rest) (addEdge adj a b)]
    rw [adjMem_addEdge]
    rw [show consecPairs (a :: b :: rest) = (a, b) :: consecPairs (b :: rest) from rfl]
    simp only [List.mem_cons, Prod.mk.injEq]
    tauto

/-- Folding the per-destination paths collects exactly the spec-side edges. -/
theorem adjMem_foldl (x y : String) :
    ∀ (rs : ResultSet) (adj : List (String × List String)),
      adjMem (rs.foldl (fun m p => addPathEdges m (presentIPs p.2)) adj) x y
        ↔ (x, y) ∈ specEdges rs ∨ adjMem adj x y
  | [], adj => by simp [specEdges]
  | p :: rest, adj => by
    simp only [List.foldl_cons]
    rw [adjMem_foldl x y rest (addPathEdges adj (presentIPs p.2))]
    rw [adjMem_addPathEdges]
    have hsp : specEdges (p :: rest) = consecPairs (presentIPs p.2) ++ specEdges rest := by
      simp [specEdges]
    rw [hsp]
    simp only [List.mem_append]
    tauto

end NetTopo
namespace NetTopo

/-- C1: build_adjacency maps every result set to exactly the spec graph. -/
theorem build_adjacency_matches_spec :
    (∀ (rs : ResultSet) (a b : String),
      adjMem (build_adjacency rs) a b ↔ (a, b) ∈ specEdges rs)
    ∧ build_adjacency
        [("d", [(1, some ("A"), none), (2, none, none), (3, some ("D"), none)])]
        = [("A", ["D"])]
    ∧ build_adjacency
        [("d", [(1, some ("A"), some 10), (2, some ("B"), some 20), (3, some ("D"), some 30)])]
        = [("A", ["B"]), ("B", ["D"])] := by
  refine ⟨fun rs a b => ?_, by decide, by decide⟩
  rw [show build_adjacency rs
        = rs.foldl (fun m p => addPathEdges m (presentIPs p.2)) [] from rfl]
  rw [adjMem_foldl]
  have := adjMem_nil a b
  tauto

/-- Nonnegativity of the collected (ip, rtt) pairs follows from nonnegativity
of the recorded rtts. -/
theorem ipRttPairs_nonneg (hops : List Hop)
    (h : ∀ hp ∈ hops, 0 ≤ hp.2.2.getD 0) :
    ∀ p ∈ ipRttPairs hops, 0 ≤ p.2 := by
  intro p hp
  rcases List.mem_filterMap.mp hp with ⟨hq, hqm, hf⟩
  have := h hq hqm
  rcases hq with ⟨t, ip?, rtt?⟩
  cases ip? with
  | none => simp at hf
  | some ip =>
    cases rtt? with
    | none => simp at hf
    | some rtt =>
      simp only [Option.some.injEq] at hf
      rw [← hf]
      simpa using this

/-- With nonnegative source rtt, the truthiness branch computes exactly the
guarded append of the spec. -/
theorem latency_step_eq (a b : String) (ra rb : ℚ) (hra : 0 ≤ ra)
    (m : List ((String × String) × List ℚ)) :
    (if deltaMs ra rb ≠ 0 ∧ 0 < deltaMs ra rb
     then addSample m (a, b) (deltaMs ra rb) else m)
      = (if 0 < rb - ra then addSample m (a, b) (rb - ra) else m) := by
  by_cases hrb : rb = 0
  · subst hrb
    have h1 : deltaMs ra 0 = 0 := by simp [deltaMs]
    rw [h1]
    have h2 : ¬ ((0:ℚ) ≠ 0 ∧ 0 < (0:ℚ)) := by simp
    rw [if_neg h2]
    have h3 : ¬ ((0:ℚ) < 0 - ra) := by linarith
    rw [if_neg h3]
  · by_cases hra0 : ra = 0
    · subst hra0
      have h1 : deltaMs 0 rb = rb := by simp [deltaMs]
      rw [h1, sub_zero]
      by_cases hpos : 0 < rb
      · rw [if_pos ⟨ne_of_gt hpos, hpos⟩, if_pos hpos]
      · rw [if_neg (fun hc => hpos hc.2), if_neg hpos]
    · have h1 : deltaMs ra rb = rb - ra := by simp [deltaMs, hrb, hra0]
      rw [h1]
      by_cases hpos : 0 < rb - ra
      · rw [if_pos ⟨ne_of_gt hpos, hpos⟩, if_pos hpos]
      · rw [if_neg (fun hc => hpos hc.2), if_neg hpos]

/-- On a pair list with nonnegative rtts the truthiness loop and the spec loop
agree. -/
theorem addLatencySamples_eq_spec :
    ∀ (l : List (String × ℚ)) (m : List ((String × String) × List ℚ)),
      (∀ p ∈ l, 0 ≤ p.2) →
      addLatencySamples m l = specLatencySamples m l
  | [], _, _ => rfl
  | [_], _, _ => rfl
  | (a, ra) :: (b, rb) :: rest, m, h => by
    have hra : 0 ≤ ra := h (a, ra) (by simp)
    have hrest : ∀ p ∈ (b, rb) :: rest, 0 ≤ p.2 := fun p hp =>
      h p (List.mem_cons_of_mem _ hp)
    rw [show addLatencySamples m ((a, ra) :: (b, rb) :: rest)
          = addLatencySamples
              (if deltaMs ra rb ≠ 0 ∧ 0 < deltaMs ra rb
               then addSample m (a, b) (deltaMs ra rb) else m)
              ((b, rb) :: rest) from rfl]
    rw [show specLatencySamples m ((a, ra) :: (b, rb) :: rest)
          = specLatencySamples
              (if 0 < rb - ra then addSample m (a, b) (rb - ra) else m)
              ((b, rb) :: rest) from rfl]
    rw [latency_step_eq a b ra rb hra]
    exact addLatencySamples_eq_spec ((b, rb) :: rest) _ hrest

/-- Folding the per-destination latency collection agrees with the spec fold. -/
theorem build_latency_foldl_eq :
    ∀ (rs : ResultSet) (m : List ((String × String) × List ℚ)),
      (∀ q ∈ rs, ∀ hp ∈ q.2, 0 ≤ hp.2.2.getD 0) →
      rs.foldl (fun m p => addLatencySamples m (ipRttPairs p.2)) m
        = rs.foldl (fun m p => specLatencySamples m (ipRttPairs p.2)) m
  | [], _, _ => rfl
  | q :: rest, m, h => by
    simp only [List.foldl_cons]
    rw [addLatencySamples_eq_spec (ipRttPairs q.2) m
      (ipRttPairs_nonneg q.2 (h q (List.mem_cons_self _ _)))]
    exact build_latency_foldl_eq rest _
      (fun r hr hp hhp => h r (List.mem_cons_of_mem _ hr) hp hhp)

/-- C2: latency derivation equals the spec procedure. -/
theorem build_adjacency_with_latency_matches_spec :
    (∀ rs : ResultSet, (∀ q ∈ rs, ∀ hp ∈ q.2, 0 ≤ hp.2.2.getD 0) →
      build_adjacency_with_latency rs = derive_edge_latency_spec rs)
    ∧ build_adjacency_with_latency
        [("d", [(1, some ("A"), some 10), (2, some ("B"), some 20), (3, some ("D"), some 30)])]
        = [(("A", "B"), [10]), (("B", "D"), [10])] := by
  constructor
  · intro rs h
    exact build_latency_foldl_eq rs [] h
  · have h1 : ¬ ("A" : String) = "B" := by decide
    have h2 : ¬ ("B" : String) = "D" := by decide
    norm_num [build_adjacency_with_latency, addLatencySamples, ipRttPairs,
      deltaMs, addSample, List.filterMap, h1, h2]

/-- Witness for C2: the nonnegativity hypothesis holds at the spec's example
result set and the theorem applies there. -/
theorem build_adjacency_with_latency_matches_spec_witness :
    (∀ q ∈ ([("d", [(1, some ("A"), some 10), (2, some ("B"), some 20),
        (3, some ("D"), some 30)])] : ResultSet), ∀ hp ∈ q.2, 0 ≤ hp.2.2.getD 0)
    ∧ build_adjacency_with_latency
        [("d", [(1, some ("A"), some 10), (2, some ("B"), some 20), (3, some ("D"), some 30)])]
        = derive_edge_latency_spec
            [("d", [(1, some ("A"), some 10), (2, some ("B"), some 20), (3, some ("D"), some 30)])] := by
  have hn : ∀ q ∈ ([("d", [(1, some ("A"), some 10), (2, some ("B"), some 20),
      (3, some ("D"), some 30)])] : ResultSet), ∀ hp ∈ q.2, 0 ≤ hp.2.2.getD 0 := by
    intro q hq hp hhp
    fin_cases hq
    fin_cases hhp <;> norm_num
  exact ⟨hn, build_adjacency_with_latency_matches_spec.1 _ hn⟩

end NetTopo
namespace NetTopo

/-- Every successful return of the probe loop extends the accumulator's ttl
column by a contiguous run starting at the current ttl. -/
theorem runLoop_ttls (destIp : String) (sendOk : Nat → Bool)
    (reply : Nat → Option String × Option Nat × Option ℚ) :
    ∀ (fuel ttl : Nat) (acc hops : List Hop),
      runLoop destIp sendOk reply fuel ttl acc = some (Except.ok hops) →
      ∃ k, hops.map (fun hp => hp.1) = acc.map (fun hp => hp.1) ++ List.range' ttl k := by
  intro fuel
  induction fuel with
  | zero => intro ttl acc hops h; exact absurd h (by simp [runLoop])
  | succ fuel ih =>
    intro ttl acc hops h
    rw [runLoop] at h
    by_cases hs : sendOk ttl
    · rw [if_pos hs] at h
      rcases hr : reply ttl with ⟨a, ty, rtt⟩
      rw [hr] at h
      cases a with
      | none =>
        obtain ⟨k, hk⟩ := ih (ttl + 1) (acc ++ [(ttl, none, none)]) hops h
        refine ⟨k + 1, ?_⟩
        rw [hk, List.map_append, List.range'_succ]
        simp
      | some addr =>
        have h2 : (if addr = destIp ∨ ty = some 3
            then some (Except.ok (acc ++ [(ttl, some addr, rtt)]))
            else runLoop destIp sendOk reply fuel (ttl + 1)
              (acc ++ [(ttl, some addr, rtt)])) = some (Except.ok hops) := h
        by_cases hb : addr = destIp ∨ ty = some 3
        · rw [if_pos hb, Option.some.injEq, Except.ok.injEq] at h2
          refine ⟨1, ?_⟩
          rw [← h2, List.map_append]
          simp [List.range'_succ]
        · rw [if_neg hb] at h2
          obtain ⟨k, hk⟩ := ih (ttl + 1) (acc ++ [(ttl, some addr, rtt)]) hops h2
          refine ⟨k + 1, ?_⟩
          rw [hk, List.map_append, List.range'_succ]
          simp
    · rw [if_neg hs] at h
      exact absurd h (by simp)

/-- C3: every hop list returned by a completed Traceroute.run has ttl
components exactly 1, 2, ..., N in order, with no gaps and no repeats, however
the trace terminated and whichever hops timed out. -/
theorem traceroute_run_ttls (resolved : Option String) (socketsOk : Bool)
    (sendOk : Nat → Bool) (reply : Nat → Option String × Option Nat × Option ℚ)
    (fuel : Nat) (hops : List Hop)
    (h : traceroute_run resolved socketsOk sendOk reply fuel = some (Except.ok hops)) :
    hops.map (fun hp => hp.1) = List.range' 1 hops.length := by
  cases resolved with
  | none => exact absurd h (by simp [traceroute_run])
  | some destIp =>
    rw [traceroute_run] at h
    by_cases hsock : socketsOk
    · rw [if_pos hsock] at h
      obtain ⟨k, hk⟩ := runLoop_ttls destIp sendOk reply fuel 1 [] hops h
      simp only [List.map_nil, List.nil_append] at hk
      have hlen : hops.length = k := by
        have := congrArg List.length hk
        simpa using this
      rw [hlen]
      exact hk
    · rw [if_neg hsock] at h
      exact absurd h (by simp)

/-- Witness for C3: a concrete completed run whose reply at ttl 1 comes from
the destination itself; the returned ttl column is exactly [1]. -/
theorem traceroute_run_ttls_witness :
    traceroute_run (some ("D")) true (fun _ => true)
        (fun _ => (some ("D"), some 11, some 5)) 3
      = some (Except.ok [(1, some ("D"), some 5)])
    ∧ ([((1 : Nat), some ("D"), some (5 : ℚ))] : List Hop).map (fun hp => hp.1)
        = List.range' 1 ([((1 : Nat), some ("D"), some (5 : ℚ))] : List Hop).length :=
  ⟨rfl, traceroute_run_ttls (some ("D")) true (fun _ => true)
    (fun _ => (some ("D"), some 11, some 5)) 3 _ rfl⟩

end NetTopo
namespace NetTopo

/-- Lookup after dict assignment: the assigned key holds the new value, every
other key is untouched. -/
theorem lookupKey_setKey {α : Type} (k x : String) (v : α) :
    ∀ m : List (String × α),
      lookupKey x (setKey m k v) = if k = x then some v else lookupKey x m
  | [] => by
    by_cases hkx : k = x <;> simp [setKey, lookupKey, hkx]
  | (q, w) :: rest => by
    by_cases hqk : q = k
    · subst hqk
      by_cases hqx : q = x
      · subst hqx
        simp [setKey, lookupKey]
      · simp [setKey, lookupKey, hqx]
    · by_cases hqx : q = x
      · subst hqx
        have hkq : ¬ k = q := fun h => hqk h.symm
        simp [setKey, lookupKey, hqk, hkq]
      · simp only [setKey, if_neg hqk, lookupKey, if_neg hqx]
        exact lookupKey_setKey k x v rest

/-- Key membership after dict assignment. -/
theorem mem_keys_setKey {α : Type} (k x : String) (v : α) :
    ∀ m : List (String × α),
      x ∈ keys (setKey m k v) ↔ x = k ∨ x ∈ keys m
  | [] => by simp [setKey, keys]
  | (q, w) :: rest => by
    by_cases hqk : q = k
    · subst hqk
      simp [setKey, keys]
    · simp only [setKey, if_neg hqk, keys, List.map_cons, List.mem_cons]
      rw [show (List.map (fun p => p.1) (setKey rest k v) : List String)
            = keys (setKey rest k v) from rfl]
      rw [mem_keys_setKey k x v rest]
      simp [keys]
      tauto

/-- Dict assignment preserves duplicate-freedom of the key column. -/
theorem nodup_keys_setKey {α : Type} (k : String) (v : α) :
    ∀ m : List (String × α), (keys m).Nodup → (keys (setKey m k v)).Nodup
  | [], _ => by simp [setKey, keys]
  | (q, w) :: rest, h => by
    rw [show keys ((q, w) :: rest) = q :: keys rest from rfl] at h
    rcases List.nodup_cons.mp h with ⟨hq, hrest⟩
    by_cases hqk : q = k
    · subst hqk
      rw [show setKey ((q, w) :: rest) q v = (q, v) :: rest from by simp [setKey]]
      rw [show keys ((q, v) :: rest) = q :: keys rest from rfl]
      exact List.nodup_cons.mpr ⟨hq, hrest⟩
    · rw [show setKey ((q, w) :: rest) k v = (q, w) :: setKey rest k v from by
        simp [setKey, hqk]]
      rw [show keys ((q, w) :: setKey rest k v) = q :: keys (setKey rest k v) from rfl]
      refine List.nodup_cons.mpr ⟨?_, nodup_keys_setKey k v rest hrest⟩
      intro hmem
      rcases (mem_keys_setKey k q v rest).mp hmem with h1 | h1
      · exact hqk h1
      · exact hq h1

/-- Dict assignment with a fresh key appends one entry. -/
theorem length_setKey_not_mem {α : Type} (k : String) (v : α) :
    ∀ m : List (String × α), k ∉ keys m → (setKey m k v).length = m.length + 1
  | [], _ => by simp [setKey]
  | (q, w) :: rest, h => by
    rw [show keys ((q, w) :: rest) = q :: keys rest from rfl] at h
    have hqk : ¬ q = k := fun hqk => h (hqk ▸ List.mem_cons_self _ _)
    have hk : k ∉ keys rest := fun hk => h (List.mem_cons_of_mem _ hk)
    rw [show setKey ((q, w) :: rest) k v = (q, w) :: setKey rest k v from by
      simp [setKey, hqk]]
    simp only [List.length_cons]
    rw [length_setKey_not_mem k v rest hk]

/-- The orchestrator leaves keys outside the batch untouched. -/
theorem lookupKey_ntRun_not_mem
    (tracer : String → Except TracerouteError (List Hop)) (d : String) :
    ∀ (dests : List String) (state : ResultSet), d ∉ dests →
      lookupKey d (ntRun tracer state dests) = lookupKey d state
  | [], state, _ => rfl
  | x :: rest, state, h => by
    have hdx : ¬ x = d := fun hx => h (hx ▸ List.mem_cons_self _ _)
    have hdr : d ∉ rest := fun hr => h (List.mem_cons_of_mem _ hr)
    rw [show ntRun tracer state (x :: rest)
          = ntRun tracer (setKey state x (tracedValue tracer x)) rest from rfl]
    rw [lookupKey_ntRun_not_mem tracer d rest _ hdr]
    rw [lookupKey_setKey, if_neg hdx]

/-- After the orchestrator processes a batch, every destination in the batch
maps to the value its own trace produced. -/
theorem lookupKey_ntRun_mem
    (tracer : String → Except TracerouteError (List Hop)) (d : String) :
    ∀ (dests : List String) (state : ResultSet), d ∈ dests →
      lookupKey d (ntRun tracer state dests) = some (tracedValue tracer d)
  | [], _, h => absurd h (List.not_mem_nil d)
  | x :: rest, state, h => by
    rw [show ntRun tracer state (x :: rest)
          = ntRun tracer (setKey state x (tracedValue tracer x)) rest from rfl]
    by_cases hdr : d ∈ rest
    · exact lookupKey_ntRun_mem tracer d rest _ hdr
    · have hdx : x = d := by
        rcases List.mem_cons.mp h with h1 | h1
        · exact h1.symm
        · exact absurd h1 hdr
      rw [lookupKey_ntRun_not_mem tracer d rest _ hdr]
      rw [lookupKey_setKey, if_pos hdx]
      rw [hdx]

/-- Key membership in the orchestrator's output. -/
theorem mem_keys_ntRun
    (tracer : String → Except TracerouteError (List Hop)) (d : String) :
    ∀ (dests : List String) (state : ResultSet),
      d ∈ keys (ntRun tracer state dests) ↔ d ∈ dests ∨ d ∈ keys state
  | [], state => by simp [ntRun]
  | x :: rest, state => by
    rw [show ntRun tracer state (x :: rest)
          = ntRun tracer (setKey state x (tracedValue tracer x)) rest from rfl]
    rw [mem_keys_ntRun tracer d rest (setKey state x (tracedValue tracer x))]
    rw [mem_keys_setKey]
    simp only [List.mem_cons]
    tauto

/-- The orchestrator's output keeps a duplicate-free key column. -/
theorem nodup_keys_ntRun
    (tracer : String → Except TracerouteError (List Hop)) :
    ∀ (dests : List String) (state : ResultSet),
      (keys state).Nodup → (keys (ntRun tracer state dests)).Nodup
  | [], _, h => h
  | x :: rest, state, h =>
    nodup_keys_ntRun tracer rest _ (nodup_keys_setKey x (tracedValue tracer x) state h)

/-- With a fresh store and duplicate-free destinations the output has exactly
one entry per destination. -/
theorem length_ntRun
    (tracer : String → Except TracerouteError (List Hop)) :
    ∀ (dests : List String) (state : ResultSet), dests.Nodup →
      (∀ d ∈ dests, d ∉ keys state) →
      (ntRun tracer state dests).length = state.length + dests.length
  | [], _, _, _ => rfl
  | x :: rest, state, hnd, hfresh => by
    rcases List.nodup_cons.mp hnd with ⟨hx, hrest⟩
    rw [show ntRun tracer state (x :: rest)
          = ntRun tracer (setKey state x (tracedValue tracer x)) rest from rfl]
    rw [length_ntRun tracer rest _ hrest ?fresh]
    case fresh =>
      intro d hd
      intro hmem
      rcases (mem_keys_setKey x d (tracedValue tracer x) state).mp hmem with h1 | h1
      · exact hx (h1 ▸ hd)
      · exact hfresh d (List.mem_cons_of_mem _ hd) h1
    rw [length_setKey_not_mem x (tracedValue tracer x) state
      (hfresh x (List.mem_cons_self _ _))]
    simp only [List.length_cons]
    omega

end NetTopo
namespace NetTopo

/-- C4 counterexample: on the same one-destination batch, an OS-denied raw
socket (TraceroutePermissionError) and a failed name resolution
(DNSResolveError) produce identical orchestrator output, the destination
silently mapped to an empty entry — the permission error is not surfaced to
the caller, let alone distinctly. -/
theorem ntRun_swallows_permission_error :
    ntRun (fun _ => Except.error TracerouteError.permissionError) [] ["x"]
      = [("x", [])]
    ∧ ntRun (fun _ => Except.error TracerouteError.dnsResolveError) [] ["x"]
      = [("x", [])] := ⟨rfl, rfl⟩

/-- C4 amended: NetworkTopologer.run catches every TracerouteError — the
permission error included, since TraceroutePermissionError subclasses
TracerouteError — and maps the failing destination to an empty stored entry
instead of re-raising. -/
theorem ntRun_catches_all_errors
    (tracer : String → Except TracerouteError (List Hop)) (state : ResultSet)
    (dests : List String) (d : String) (e : TracerouteError)
    (he : tracer d = Except.error e) (hd : d ∈ dests) :
    lookupKey d (ntRun tracer state dests) = some [] := by
  rw [lookupKey_ntRun_mem tracer d dests state hd]
  rw [show tracedValue tracer d = [] from by rw [tracedValue, he]]

/-- Witness for C4 amended: a concrete tracer denied the raw socket on the
only destination of the batch. -/
theorem ntRun_catches_all_errors_witness :
    ((fun _ => Except.error TracerouteError.permissionError :
        String → Except TracerouteError (List Hop)) "x"
      = Except.error TracerouteError.permissionError)
    ∧ ("x" ∈ (["x"] : List String))
    ∧ lookupKey "x"
        (ntRun (fun _ => Except.error TracerouteError.permissionError) [] ["x"])
        = some [] :=
  ⟨rfl, by decide,
    ntRun_catches_all_errors (fun _ => Except.error TracerouteError.permissionError)
      [] ["x"] "x" TracerouteError.permissionError rfl (by decide)⟩

/-- C6 counterexample: run(["a"]) followed by run(["b"]) on the same instance
leaves the stale entry for "a" in the stored and returned mapping — sequential
run never clears self.results, so the mapping is not rebuilt fully and has a
key outside the given destination list. -/
theorem ntRun_keeps_stale_entries :
    ntRun (fun _ => Except.ok []) (ntRun (fun _ => Except.ok []) [] ["a"]) ["b"]
      = [("a", []), ("b", [])]
    ∧ lookupKey "a"
        (ntRun (fun _ => Except.ok []) (ntRun (fun _ => Except.ok []) [] ["a"]) ["b"])
        = some []
    ∧ "a" ∉ (["b"] : List String) := ⟨rfl, rfl, by decide⟩

/-- C6 amended: run_parallel rebuilds the mapping fully — its output ignores
any previously stored state, its keys are exactly the submitted destinations,
each present once; sequential run instead updates the stored mapping in
place, so only on an empty prior state are its keys exactly the given
destinations (each present once). -/
theorem ntRunParallel_rebuilds_fully :
    (∀ (state state2 : ResultSet)
       (tracer : String → Except TracerouteError (List Hop)) (order : List String),
      ntRunParallel state tracer order = ntRunParallel state2 tracer order)
    ∧ (∀ (tracer : String → Except TracerouteError (List Hop))
         (order : List String) (d : String),
        d ∈ keys (ntRunParallel [] tracer order) ↔ d ∈ order)
    ∧ (∀ (tracer : String → Except TracerouteError (List Hop)) (order : List String),
        (keys (ntRunParallel [] tracer order)).Nodup)
    ∧ (∀ (tracer : String → Except TracerouteError (List Hop))
         (dests : List String) (d : String),
        d ∈ keys (ntRun tracer [] dests) ↔ d ∈ dests)
    ∧ (∀ (tracer : String → Except TracerouteError (List Hop)) (dests : List String),
        (keys (ntRun tracer [] dests)).Nodup) := by
  have hpar : ∀ (state : ResultSet)
      (tracer : String → Except TracerouteError (List Hop)) (order : List String),
      ntRunParallel state tracer order = ntRun tracer [] order := fun _ _ _ => rfl
  refine ⟨fun state state2 tracer order => by rw [hpar, hpar], ?_, ?_, ?_, ?_⟩
  · intro tracer order d
    rw [hpar, mem_keys_ntRun]
    simp [keys]
  · intro tracer order
    rw [hpar]
    exact nodup_keys_ntRun tracer order [] (by simp [keys])
  · intro tracer dests d
    rw [mem_keys_ntRun]
    simp [keys]
  · intro tracer dests
    exact nodup_keys_ntRun tracer dests [] (by simp [keys])

/-- C8 counterexample: with a duplicated destination the returned mapping has
1 entry for a batch of 2, and on an instance still holding an earlier call's
results it has 2 entries for a batch of 1 — in both cases not exactly as many
entries as destinations. -/
theorem ntRun_entry_count_counterexample :
    (ntRun (fun _ => Except.error TracerouteError.dnsResolveError) [] ["a", "a"]).length
      ≠ (["a", "a"] : List String).length
    ∧ (ntRun (fun _ => Except.ok [])
        (ntRun (fun _ => Except.ok []) [] ["a"]) ["b"]).length
      ≠ (["b"] : List String).length := by
  constructor
  · intro h
    simp [ntRun, setKey, tracedValue, List.foldl] at h
  · intro h
    simp [ntRun, setKey, tracedValue, List.foldl] at h

/-- C8 amended: for a batch of pairwise-distinct destinations run on a fresh
orchestrator, every destination is present — a failing one mapped to the
empty list, the others to their traced hops — and the mapping has exactly as
many entries as there are destinations: the batch is never aborted. -/
theorem ntRun_partial_failure
    (tracer : String → Except TracerouteError (List Hop))
    (dests : List String) (hnd : dests.Nodup) :
    (ntRun tracer [] dests).length = dests.length
    ∧ ∀ d ∈ dests, lookupKey d (ntRun tracer [] dests) = some (tracedValue tracer d) := by
  constructor
  · rw [length_ntRun tracer dests [] hnd (by simp [keys])]
    simp
  · intro d hd
    exact lookupKey_ntRun_mem tracer d dests [] hd

/-- Witness for C8 amended: a three-destination batch where resolution fails
for "b" only: all three keys are present, "b" maps to the empty list and the
other two to their traced hops. -/
theorem ntRun_partial_failure_witness :
    (["a", "b", "c"] : List String).Nodup
    ∧ ((ntRun egTracer [] ["a", "b", "c"]).length = (["a", "b", "c"] : List String).length
      ∧ ∀ d ∈ (["a", "b", "c"] : List String),
          lookupKey d (ntRun egTracer [] ["a", "b", "c"]) = some (tracedValue egTracer d)) :=
  ⟨by decide, ntRun_partial_failure egTracer ["a", "b", "c"] (by decide)⟩

/-- C9 counterexample: when name resolution fails, Traceroute.run raises
DNSResolveError and returns nothing — in particular it does not return the
empty hop sequence. -/
theorem traceroute_run_resolution_raises :
    traceroute_run none true (fun _ => true) (fun _ => (none, none, none)) 3
      = some (Except.error TracerouteError.dnsResolveError)
    ∧ traceroute_run none true (fun _ => true) (fun _ => (none, none, none)) 3
      ≠ some (Except.ok []) := ⟨rfl, by decide⟩

/-- C9 amended: on a destination whose name resolution fails, Traceroute.run
propagates DNSResolveError to its caller instead of returning a hop sequence;
the empty recorded sequence for such a destination is produced by the
orchestrator, which catches the error and stores []. -/
theorem traceroute_run_resolution_amended :
    (∀ (socketsOk : Bool) (sendOk : Nat → Bool)
       (reply : Nat → Option String × Option Nat × Option ℚ) (fuel : Nat),
      traceroute_run none socketsOk sendOk reply fuel
        = some (Except.error TracerouteError.dnsResolveError))
    ∧ (∀ (tracer : String → Except TracerouteError (List Hop))
         (state : ResultSet) (dests : List String) (d : String),
        tracer d = Except.error TracerouteError.dnsResolveError → d ∈ dests →
        lookupKey d (ntRun tracer state dests) = some []) := by
  constructor
  · intro socketsOk sendOk reply fuel
    rfl
  · intro tracer state dests d he hd
    rw [lookupKey_ntRun_mem tracer d dests state hd]
    rw [show tracedValue tracer d = [] from by rw [tracedValue, he]]

/-- Witness for C9 amended: the concrete tracer whose resolution fails on "b",
inside a batch containing "b". -/
theorem traceroute_run_resolution_amended_witness :
    egTracer "b" = Except.error TracerouteError.dnsResolveError
    ∧ ("b" ∈ (["a", "b", "c"] : List String))
    ∧ lookupKey "b" (ntRun egTracer [] ["a", "b", "c"]) = some [] :=
  ⟨by decide, by decide,
    traceroute_run_resolution_amended.2 egTracer [] ["a", "b", "c"] "b"
      (by decide) (by decide)⟩

end NetTopo
namespace NetTopo

/-- C5: failing input for _receive_reply: with a 2-second timeout, a single
irrelevant packet of ICMP type 8 arrives from 9.9.9.9 one second in, and no
type 3 or 11 reply ever arrives; the call returns the skipped packet's
address, type and time instead of the documented explicit no-reply triple. -/
theorem receive_reply_skipped_packet_leaks :
    receive_reply 2 [⟨1, List.replicate 20 69 ++ [8, 0, 0, 0], "9.9.9.9"⟩]
      = (some ("9.9.9.9"), some 8, some 1000)
    ∧ receive_reply 2 [⟨1, List.replicate 20 69 ++ [8, 0, 0, 0], "9.9.9.9"⟩]
      ≠ ((none, none, none) : Option String × Option Nat × Option ℚ) := by
  have hp : parse_icmp_type (List.replicate 20 69 ++ [8, 0, 0, 0]) = some 8 := by
    decide
  have heq : receive_reply 2 [⟨1, List.replicate 20 69 ++ [8, 0, 0, 0], "9.9.9.9"⟩]
      = (some ("9.9.9.9"), some 8, some 1000) := by
    rw [receive_reply, receiveReplyLoop]
    norm_num [hp, receiveReplyLoop]
  refine ⟨heq, ?_⟩
  rw [heq]
  simp

/-- C7: reply classification: the ICMP type is read at the offset given by the
first byte's low nibble times 4; a received packet of type 11 or 3 ends the
wait and is returned as the reply, while a too-short packet (parse failure) or
any other type leaves the engine waiting on the remaining packets within the
timeout rather than terminating the probe early or failing. -/
theorem reply_classification :
    (∀ data : Bytes, 20 ≤ data.length →
      (data.getD 0 0 % 16) * 4 + 4 ≤ data.length →
      parse_icmp_type data = some (data.getD ((data.getD 0 0 % 16) * 4) 0))
    ∧ (∀ data : Bytes, data.length < 20 → parse_icmp_type data = none)
    ∧ (∀ (timeout : ℚ) (p : Packet) (rest : List Packet)
         (a : Option String) (ty : Option Nat) (r : Option ℚ), p.time < timeout →
        ((parse_icmp_type p.data = some 11 ∨ parse_icmp_type p.data = some 3) →
          receiveReplyLoop timeout (p :: rest) a ty r
            = (some p.addr, parse_icmp_type p.data, some (p.time * 1000)))
        ∧ ((parse_icmp_type p.data = some 11 ∨ parse_icmp_type p.data = some 3 → False) →
          receiveReplyLoop timeout (p :: rest) a ty r
            = receiveReplyLoop timeout rest (some p.addr) (parse_icmp_type p.data)
                (some (p.time * 1000)))) := by
  refine ⟨?_, ?_, ?_⟩
  · intro data h20 hihl
    rw [parse_icmp_type, if_neg (by omega), if_neg (by omega)]
  · intro data h20
    rw [parse_icmp_type, if_pos h20]
  · intro timeout p rest a ty r ht
    constructor
    · intro hcl
      rw [receiveReplyLoop, if_pos ht, if_pos hcl]
    · intro hcl
      rw [receiveReplyLoop, if_pos ht, if_neg hcl]

/-- Witness for C7: on concrete packets, the parse-offset equation holds, a
type-11 packet ends the wait with its own data, and a type-8 packet keeps the
engine waiting on the remaining (empty) packet list. -/
theorem reply_classification_witness :
    parse_icmp_type (List.replicate 20 69 ++ [11, 0, 0, 0])
      = some ((List.replicate 20 69 ++ [11, 0, 0, 0]).getD
          (((List.replicate 20 69 ++ [11, 0, 0, 0]).getD 0 0 % 16) * 4) 0)
    ∧ receiveReplyLoop 2
        [⟨1, List.replicate 20 69 ++ [11, 0, 0, 0], "10.0.0.1"⟩] none none none
      = (some ("10.0.0.1"),
          parse_icmp_type (List.replicate 20 69 ++ [11, 0, 0, 0]),
          some ((1 : ℚ) * 1000))
    ∧ receiveReplyLoop 2
        [⟨1, List.replicate 20 69 ++ [8, 0, 0, 0], "9.9.9.9"⟩] none none none
      = receiveReplyLoop 2 [] (some ("9.9.9.9"))
          (parse_icmp_type (List.replicate 20 69 ++ [8, 0, 0, 0]))
          (some ((1 : ℚ) * 1000)) := by
  refine ⟨reply_classification.1 _ (by decide) (by decide), ?_, ?_⟩
  · exact (reply_classification.2.2 2
      ⟨1, List.replicate 20 69 ++ [11, 0, 0, 0], "10.0.0.1"⟩ [] none none none
      (by norm_num)).1 (Or.inl (by decide))
  · exact (reply_classification.2.2 2
      ⟨1, List.replicate 20 69 ++ [8, 0, 0, 0], "9.9.9.9"⟩ [] none none none
      (by norm_num)).2 (by decide)

/-- C10: _parse_icmp_type is total on byte strings: it returns none exactly
when the packet is shorter than 20 bytes or shorter than the encoded header
length — the first byte's low nibble times 4 — plus 4 bytes, and otherwise it
returns the byte at the header-length offset, an integer between 0 and 255. -/
theorem parse_icmp_type_total (data : Bytes) (hb : ∀ b ∈ data, b < 256) :
    (parse_icmp_type data = none
      ↔ (data.length < 20 ∨ data.length < (data.getD 0 0 % 16) * 4 + 4))
    ∧ ∀ t, parse_icmp_type data = some t →
        t = data.getD ((data.getD 0 0 % 16) * 4) 0 ∧ t < 256 := by
  constructor
  · by_cases h20 : data.length < 20
    · rw [parse_icmp_type, if_pos h20]
      exact iff_of_true rfl (Or.inl h20)
    · by_cases hihl : data.length < (data.getD 0 0 % 16) * 4 + 4
      · rw [parse_icmp_type, if_neg h20, if_pos hihl]
        exact iff_of_true rfl (Or.inr hihl)
      · rw [parse_icmp_type, if_neg h20, if_neg hihl]
        exact iff_of_false (by simp) (fun hc => hc.elim h20 hihl)
  · intro t ht
    by_cases h20 : data.length < 20
    · rw [parse_icmp_type, if_pos h20] at ht
      exact absurd ht (by simp)
    · by_cases hihl : data.length < (data.getD 0 0 % 16) * 4 + 4
      · rw [parse_icmp_type, if_neg h20, if_pos hihl] at ht
        exact absurd ht (by simp)
      · rw [parse_icmp_type, if_neg h20, if_neg hihl, Option.some.injEq] at ht
        have hlt : (data.getD 0 0 % 16) * 4 < data.length := by omega
        have hgd : data.getD ((data.getD 0 0 % 16) * 4) 0
            = data.get ⟨(data.getD 0 0 % 16) * 4, hlt⟩ := by
          rw [List.getD_eq_getElem?_getD, List.getElem?_eq_getElem hlt]
          simp [List.get_eq_getElem]
        refine ⟨ht.symm, ?_⟩
        rw [← ht, hgd]
        exact hb _ (by rw [List.get_eq_getElem]; exact List.getElem_mem hlt)

/-- Witness for C10: the byte-range hypothesis holds for a concrete 24-byte
packet and the characterization applies to it. -/
theorem parse_icmp_type_total_witness :
    (parse_icmp_type (List.replicate 20 69 ++ [8, 0, 0, 0]) = none
      ↔ ((List.replicate 20 69 ++ [8, 0, 0, 0] : Bytes).length < 20
        ∨ (List.replicate 20 69 ++ [8, 0, 0, 0] : Bytes).length
            < ((List.replicate 20 69 ++ [8, 0, 0, 0] : Bytes).getD 0 0 % 16) * 4 + 4))
    ∧ ∀ t, parse_icmp_type (List.replicate 20 69 ++ [8, 0, 0, 0]) = some t →
        t = (List.replicate 20 69 ++ [8, 0, 0, 0] : Bytes).getD
              (((List.replicate 20 69 ++ [8, 0, 0, 0] : Bytes).getD 0 0 % 16) * 4) 0
          ∧ t < 256 :=
  parse_icmp_type_total (List.replicate 20 69 ++ [8, 0, 0, 0]) (by decide)

end NetTopo
